import Mathlib

/-!
Verification of the raster bounding/cropping core of GCBM.Animation.

The development shallowly embeds `gcbmanimation/layer/boundingbox.py` and
`gcbmanimation/indicator/compositeindicator.py`.  Rasters are modelled as
rectangular integer grids with an integer nodata sentinel and an integer
affine geotransform; the stateful parts (lazy caches, the bounding box's
self-crop, temporary files) are modelled by explicit state passing over a
`World` holding the file system and the temp-file counter.  The classes
`Layer` and `LayerCollection` are not part of the sources at hand; where
they are needed they are modelled from the specification and marked as
such in their doc comments.
-/

namespace Gcbm

/-- In-memory model of a raster file: a nodata sentinel, the pixel grid
(rows of columns, as read by `ReadAsArray`), and the six entries of the
GDAL geotransform `(origin_x, x_size, _, origin_y, _, y_size)`. -/
structure Raster where
  nodata : Int
  grid : List (List Int)
  gt0 : Int
  gt1 : Int
  gt2 : Int
  gt3 : Int
  gt4 : Int
  gt5 : Int
deriving DecidableEq

/-- `np.where(row != nodata)[0]`: the column indices of a row whose value
differs from the nodata sentinel. -/
def nonNodataIdx (nodata : Int) (row : List Int) : List Nat :=
  (List.range row.length).filter fun j => row.getD j 0 != nodata

/-- One iteration of the row loop of `BoundingBox.min_pixel_bounds`
(boundingbox.py lines 35-45).  The state is `(x_min, x_max, y_min, y_max)`;
a row with no non-nodata column is skipped (`continue`). -/
def boundsStep (nodata : Int) (i : Nat) (st : Int × Int × Int × Int)
    (row : List Int) : Int × Int × Int × Int :=
  match (nonNodataIdx nodata row).min?, (nonNodataIdx nodata row).max? with
  | some xiMin, some xiMax =>
    ( if (xiMin : Int) < st.1 then (xiMin : Int) else st.1,
      if (xiMax : Int) > st.2.1 then (xiMax : Int) else st.2.1,
      if st.2.2.1 = 0 then (i : Int) else st.2.2.1,
      (i : Int) )
  | _, _ => st

/-- The row loop `for i, row in enumerate(raster_data)` of
`BoundingBox.min_pixel_bounds`, carrying the running row index. -/
def boundsScan (nodata : Int) : Nat → Int × Int × Int × Int → List (List Int) →
    Int × Int × Int × Int
  | _, st, [] => st
  | i, st, row :: rest => boundsScan nodata (i + 1) (boundsStep nodata i st row) rest

/-- The pure computation of `BoundingBox.min_pixel_bounds`
(boundingbox.py lines 30-47): scan the grid and widen the resulting box by
one pixel on each side. -/
def computeMinPixelBounds (nodata : Int) (grid : List (List Int)) : List Int :=
  let width : Int := ((grid.headD []).length : Int)
  let st := boundsScan nodata 0 (width, 0, 0, 0) grid
  [st.1 - 1, st.2.1 + 1, st.2.2.1 - 1, st.2.2.2 + 1]

theorem nonNodataIdx_eq_nil {nodata : Int} {row : List Int}
    (h : ∀ j, j < row.length → row.getD j 0 = nodata) :
    nonNodataIdx nodata row = [] := by
  simp only [nonNodataIdx, List.filter_eq_nil_iff]
  intro j hj
  simp only [List.mem_range] at hj
  simp only [bne_iff_ne, ne_eq, not_not]
  exact h j hj

theorem boundsStep_skip {nodata : Int} {row : List Int} (i : Nat)
    (st : Int × Int × Int × Int)
    (h : ∀ j, j < row.length → row.getD j 0 = nodata) :
    boundsStep nodata i st row = st := by
  simp [boundsStep, nonNodataIdx_eq_nil h]

theorem boundsScan_skip {nodata : Int} {grid : List (List Int)} :
    ∀ (i : Nat) (st : Int × Int × Int × Int),
    (∀ row ∈ grid, ∀ j, j < row.length → row.getD j 0 = nodata) →
    boundsScan nodata i st grid = st := by
  induction grid with
  | nil => intro i st _; rfl
  | cons row rest ih =>
    intro i st h
    rw [boundsScan, boundsStep_skip i st (h row (by simp)),
      ih (i + 1) st (fun r hr => h r (by simp [hr]))]

theorem computeMinPixelBounds_allNodata {nodata : Int} {grid : List (List Int)}
    {W : Nat} (hne : grid ≠ []) (hW : ∀ row ∈ grid, row.length = W)
    (h : ∀ row ∈ grid, ∀ x ∈ row, x = nodata) :
    computeMinPixelBounds nodata grid = [(W : Int) - 1, 1, -1, 1] := by
  have hhead : (grid.headD []).length = W := by
    cases grid with
    | nil => exact absurd rfl hne
    | cons a t => exact hW a (by simp)
  have hpt : ∀ row ∈ grid, ∀ j, j < row.length → row.getD j 0 = nodata := by
    intro row hr j hj
    rw [List.getD_eq_getElem row 0 hj]
    exact h row hr _ (List.getElem_mem hj)
  simp only [computeMinPixelBounds, boundsScan_skip 0 _ hpt, hhead]
  norm_num

/-- Expected state of the `min_pixel_bounds` row loop after the first `i`
rows of a grid of width `W` whose non-nodata pixels are exactly the
rectangle of rows `r0..r1` and columns `c0..c1`. -/
def expSt (W r0 r1 c0 c1 i : Nat) : Int × Int × Int × Int :=
  if i ≤ r0 then ((W : Int), 0, 0, 0)
  else if i ≤ r1 + 1 then
    ((c0 : Int), (c1 : Int),
     (if r0 = 0 then (if i ≤ 1 then 0 else 1) else (r0 : Int)), (i : Int) - 1)
  else
    ((c0 : Int), (c1 : Int),
     (if r0 = 0 then (if r1 = 0 then 0 else 1) else (r0 : Int)), (r1 : Int))

theorem nonNodataIdx_mem_iff {nodata : Int} {row : List Int} {c0 c1 W : Nat}
    (hlen : row.length = W)
    (hrow : ∀ j, j < W → (row.getD j 0 ≠ nodata ↔ (c0 ≤ j ∧ j ≤ c1))) :
    ∀ j, j ∈ nonNodataIdx nodata row ↔ (j < W ∧ c0 ≤ j ∧ j ≤ c1) := by
  intro j
  simp only [nonNodataIdx, List.mem_filter, List.mem_range, hlen, bne_iff_ne]
  constructor
  · rintro ⟨hj, hne⟩
    exact ⟨hj, (hrow j hj).1 hne⟩
  · rintro ⟨hj, hc⟩
    exact ⟨hj, (hrow j hj).2 hc⟩

theorem nonNodataIdx_min_max {nodata : Int} {row : List Int} {c0 c1 W : Nat}
    (hlen : row.length = W) (hc : c0 ≤ c1) (hcW : c1 < W)
    (hrow : ∀ j, j < W → (row.getD j 0 ≠ nodata ↔ (c0 ≤ j ∧ j ≤ c1))) :
    (nonNodataIdx nodata row).min? = some c0 ∧
      (nonNodataIdx nodata row).max? = some c1 := by
  have hmem := nonNodataIdx_mem_iff hlen hrow
  constructor
  · rw [List.min?_eq_some_iff (fun a => Nat.le_refl a) (fun a b => by omega)
      (fun a b c => by omega)]
    constructor
    · exact (hmem c0).2 ⟨by omega, Nat.le_refl c0, hc⟩
    · intro b hb
      exact ((hmem b).1 hb).2.1
  · rw [List.max?_eq_some_iff (fun a => Nat.le_refl a) (fun a b => by omega)
      (fun a b c => by omega)]
    constructor
    · exact (hmem c1).2 ⟨hcW, hc, Nat.le_refl c1⟩
    · intro b hb
      exact ((hmem b).1 hb).2.2

theorem expSt_lo {W r0 r1 c0 c1 i : Nat} (h : i ≤ r0) :
    expSt W r0 r1 c0 c1 i = ((W : Int), 0, 0, 0) := by
  simp only [expSt]
  rw [if_pos h]

theorem expSt_mid {W r0 r1 c0 c1 i : Nat} (h1 : ¬ i ≤ r0) (h2 : i ≤ r1 + 1) :
    expSt W r0 r1 c0 c1 i =
      ((c0 : Int), (c1 : Int),
       (if r0 = 0 then (if i ≤ 1 then 0 else 1) else (r0 : Int)), (i : Int) - 1) := by
  simp only [expSt]
  rw [if_neg h1, if_pos h2]

theorem expSt_hi {W r0 r1 c0 c1 i : Nat} (h1 : ¬ i ≤ r0) (h2 : ¬ i ≤ r1 + 1) :
    expSt W r0 r1 c0 c1 i =
      ((c0 : Int), (c1 : Int),
       (if r0 = 0 then (if r1 = 0 then 0 else 1) else (r0 : Int)), (r1 : Int)) := by
  simp only [expSt]
  rw [if_neg h1, if_neg h2]

theorem boundsStep_expSt {nodata : Int} {W r0 r1 c0 c1 i : Nat} {row : List Int}
    (hr01 : r0 ≤ r1) (hc : c0 ≤ c1) (hcW : c1 < W) (hlen : row.length = W)
    (hrow : ∀ j, j < W →
      (row.getD j 0 ≠ nodata ↔ (r0 ≤ i ∧ i ≤ r1 ∧ c0 ≤ j ∧ j ≤ c1))) :
    boundsStep nodata i (expSt W r0 r1 c0 c1 i) row = expSt W r0 r1 c0 c1 (i + 1) := by
  by_cases hin : r0 ≤ i ∧ i ≤ r1
  · -- a row of the rectangle: columns c0..c1 are the non-nodata ones
    have hrow' : ∀ j, j < W → (row.getD j 0 ≠ nodata ↔ (c0 ≤ j ∧ j ≤ c1)) := by
      intro j hj
      rw [hrow j hj]
      exact ⟨fun h => ⟨h.2.2.1, h.2.2.2⟩, fun h => ⟨hin.1, hin.2, h.1, h.2⟩⟩
    obtain ⟨hmin, hmax⟩ := nonNodataIdx_min_max hlen hc hcW hrow'
    obtain ⟨hin1, hin2⟩ := hin
    rw [boundsStep, hmin, hmax]
    rcases Nat.lt_or_ge r0 i with hgt | hle
    · rw [expSt_mid (by omega) (by omega), expSt_mid (by omega) (by omega)]
      simp only [Prod.mk.injEq]
      refine ⟨?_, ?_, ?_, ?_⟩ <;> first | trivial | (split_ifs <;> omega) | omega
    · have hieq : i = r0 := by omega
      subst hieq
      rw [expSt_lo (Nat.le_refl i), expSt_mid (by omega) (by omega)]
      simp only [Prod.mk.injEq]
      refine ⟨?_, ?_, ?_, ?_⟩ <;> first | trivial | (split_ifs <;> omega) | omega
  · -- a row outside the rectangle: every pixel is nodata
    have hnil : ∀ j, j < row.length → row.getD j 0 = nodata := by
      intro j hj
      rw [hlen] at hj
      by_contra hne
      exact hin ⟨((hrow j hj).1 hne).1, ((hrow j hj).1 hne).2.1⟩
    have hni : i < r0 ∨ r1 < i := by
      rcases Nat.lt_or_ge i r0 with hlt | hge
      · exact Or.inl hlt
      · refine Or.inr ?_
        by_contra hle
        exact hin ⟨hge, by omega⟩
    rw [boundsStep_skip i _ hnil]
    rcases hni with hlt | hgt
    · rw [expSt_lo (by omega), expSt_lo (by omega)]
    · by_cases h2 : i ≤ r1 + 1
      · rw [expSt_mid (by omega) h2, expSt_hi (by omega) (by omega)]
        simp only [Prod.mk.injEq]
        refine ⟨?_, ?_, ?_, ?_⟩ <;> first | trivial | (split_ifs <;> omega) | omega
      · rw [expSt_hi (by omega) (by omega), expSt_hi (by omega) (by omega)]

theorem boundsScan_expSt {nodata : Int} {W r0 r1 c0 c1 : Nat}
    (hr01 : r0 ≤ r1) (hc : c0 ≤ c1) (hcW : c1 < W) :
    ∀ (L : List (List Int)) (i : Nat),
    (∀ row ∈ L, row.length = W) →
    (∀ k, k < L.length → ∀ j, j < W →
      ((L.getD k []).getD j 0 ≠ nodata ↔
        (r0 ≤ i + k ∧ i + k ≤ r1 ∧ c0 ≤ j ∧ j ≤ c1))) →
    boundsScan nodata i (expSt W r0 r1 c0 c1 i) L =
      expSt W r0 r1 c0 c1 (i + L.length) := by
  intro L
  induction L with
  | nil => intro i _ _; rfl
  | cons row rest ih =>
    intro i hW hrect
    rw [boundsScan, boundsStep_expSt hr01 hc hcW (hW row (by simp))
      (by
        intro j hj
        have h0 := hrect 0 (by simp) j hj
        simpa using h0)]
    rw [ih (i + 1) (fun r hr => hW r (by simp [hr]))
      (by
        intro k hk j hj
        have h2 := hrect (k + 1) (by simpa using Nat.succ_lt_succ hk) j hj
        simp only [List.getD_cons_succ] at h2
        have he : i + (k + 1) = i + 1 + k := by omega
        rw [he] at h2
        exact h2)]
    have he : i + 1 + rest.length = i + (row :: rest).length := by
      simp only [List.length_cons]
      omega
    rw [he]

/-- The loop state after all rows, when the grid has more rows than `r1`. -/
theorem expSt_final {W r0 r1 c0 c1 n : Nat} (hr01 : r0 ≤ r1) (h : r1 < n) :
    expSt W r0 r1 c0 c1 n =
      ((c0 : Int), (c1 : Int),
       (if r0 = 0 then (if r1 = 0 then 0 else 1) else (r0 : Int)), (r1 : Int)) := by
  by_cases h2 : n ≤ r1 + 1
  · rw [expSt_mid (by omega) h2]
    simp only [Prod.mk.injEq]
    refine ⟨?_, ?_, ?_, ?_⟩ <;> first | trivial | (split_ifs <;> omega) | omega
  · rw [expSt_hi (by omega) h2]

/-- C1 (amended): for a raster of width `W` whose non-nodata pixels are
exactly the rectangle of rows `r0..r1` and columns `c0..c1`,
`min_pixel_bounds` returns `[c0 - 1, c1 + 1, y - 1, r1 + 1]` where `y` is
the first non-nodata row `r0` except when the rectangle starts at row 0 and
spans more than one row, in which case `y = 1`: the loop seeds `y_min` with
`0` and treats `0` as "not yet set", so a rectangle touching row 0 leaves
`y_min` at the second rectangle row. -/
theorem minPixelBounds_rect_box {nodata : Int} {grid : List (List Int)}
    {W r0 r1 c0 c1 : Nat}
    (hW : ∀ row ∈ grid, row.length = W)
    (hr01 : r0 ≤ r1) (hr1 : r1 < grid.length)
    (hc : c0 ≤ c1) (hcW : c1 < W)
    (hrect : ∀ i, i < grid.length → ∀ j, j < W →
      ((grid.getD i []).getD j 0 ≠ nodata ↔ (r0 ≤ i ∧ i ≤ r1 ∧ c0 ≤ j ∧ j ≤ c1))) :
    computeMinPixelBounds nodata grid =
      [(c0 : Int) - 1, (c1 : Int) + 1,
       (if r0 = 0 then (if r1 = 0 then 0 else 1) else (r0 : Int)) - 1,
       (r1 : Int) + 1] := by
  have hhead : (grid.headD []).length = W := by
    cases grid with
    | nil => exact absurd hr1 (by simp)
    | cons a t => exact hW a (by simp)
  have h0 : (((grid.headD []).length : Int), (0 : Int), (0 : Int), (0 : Int)) =
      expSt W r0 r1 c0 c1 0 := by
    rw [expSt_lo (Nat.zero_le r0), hhead]
  have hrect' : ∀ k, k < grid.length → ∀ j, j < W →
      ((grid.getD k []).getD j 0 ≠ nodata ↔
        (r0 ≤ 0 + k ∧ 0 + k ≤ r1 ∧ c0 ≤ j ∧ j ≤ c1)) := by
    intro k hk j hj
    simpa using hrect k hk j hj
  have hscan := @boundsScan_expSt nodata W r0 r1 c0 c1 hr01 hc hcW grid 0 hW hrect'
  simp only [computeMinPixelBounds]
  rw [h0, hscan, expSt_final hr01 (by omega)]

/-- Witness for `minPixelBounds_rect_box`: a 3x3 raster whose non-nodata
pixels are the rectangle of rows 1..1 and columns 1..2. -/
theorem minPixelBounds_rect_box_witness :
    computeMinPixelBounds 0 [[0, 0, 0], [0, 5, 5], [0, 0, 0]] = [0, 3, 0, 2] := by
  have h := @minPixelBounds_rect_box 0 [[0, 0, 0], [0, 5, 5], [0, 0, 0]]
    3 1 1 1 2
    (by decide) (by decide) (by decide) (by decide) (by decide) (by decide)
  simpa using h

/-- C1 counterexample: the 2x1 raster `[[1], [1]]` with nodata `0` has a
rectangular non-nodata region with rows 0..1 and columns 0..0, yet
`min_pixel_bounds` does not return `[x_min - 1, x_max + 1, y_min - 1,
y_max + 1] = [-1, 1, -1, 2]`; it returns `[-1, 1, 0, 2]`. -/
theorem minPixelBounds_rect_claim_false :
    (∀ i, i < ([[1], [1]] : List (List Int)).length → ∀ j, j < 1 →
      ((([[1], [1]] : List (List Int)).getD i []).getD j 0 ≠ 0 ↔
        (0 ≤ i ∧ i ≤ 1 ∧ 0 ≤ j ∧ j ≤ 0))) ∧
    computeMinPixelBounds 0 [[1], [1]] ≠
      [(0 : Int) - 1, (0 : Int) + 1, (0 : Int) - 1, (1 : Int) + 1] := by
  constructor
  · decide
  · decide

/-- A file path: either a user-supplied path or the `n`-th temporary file
handed out by the temp-file collaborator. -/
inductive Path
  | user : String → Path
  | tmp : Nat → Path
deriving DecidableEq

/-- The ambient state: the file system (raster contents by path) and the
counter of the temp-file collaborator. -/
structure World where
  fs : Path → Option Raster
  nextTmp : Nat

/-- `TempFileManager.mktmp`: hand out a fresh temporary path. -/
def mktmp (w : World) : Path × World :=
  (Path.tmp w.nextTmp, { w with nextTmp := w.nextTmp + 1 })

/-- Writing a raster file to the file system. -/
def World.write (w : World) (p : Path) (r : Raster) : World :=
  { w with fs := fun q => if q = p then some r else w.fs q }

/-- Freshness invariant of the temp-file collaborator: temp paths at or
past the counter do not exist yet. -/
def World.ok (w : World) : Prop :=
  ∀ n, w.nextTmp ≤ n → w.fs (Path.tmp n) = none

/-- Modelled from the spec: the `Layer` class (`layer.py`) is not among the
sources at hand.  Per the spec's data model, a layer owns a file path, an
integer year (optional: `None` for non-time-indexed layers), an optional
interpretation label, and a nodata value lazily read from the raster's
metadata and cached after the first read. -/
structure Layer where
  path : Path
  year : Option Int
  interpretation : Option String
  cacheNodata : Option Int
deriving DecidableEq

/-- Modelled from the spec: `Layer.nodata_value` reads the raster's
declared nodata sentinel from file metadata on first access and caches it. -/
def Layer.nodataM (l : Layer) (w : World) : Option (Int × Layer) :=
  match l.cacheNodata with
  | some v => some (v, l)
  | none =>
    match w.fs l.path with
    | none => none
    | some r => some (r.nodata, { l with cacheNodata := some r.nodata })

/-- `BoundingBox.__init__` state (boundingbox.py lines 17-21): the backing
path, the two bounds caches (initialized to `None`), the inherited
lazily-cached nodata value, and the self-crop initialization flag. -/
structure BoundingBox where
  path : Path
  cachePixel : Option (List Int)
  cacheGeo : Option (List Int)
  cacheNodata : Option Int
  initialized : Bool
deriving DecidableEq

/-- A freshly constructed `BoundingBox(path)`. -/
def mkBoundingBox (p : Path) : BoundingBox := ⟨p, none, none, none, false⟩

/-- The bounding box's inherited lazily-cached `nodata_value`. -/
def BoundingBox.nodataM (b : BoundingBox) (w : World) :
    Option (Int × BoundingBox) :=
  match b.cacheNodata with
  | some v => some (v, b)
  | none =>
    match w.fs b.path with
    | none => none
    | some r => some (r.nodata, { b with cacheNodata := some r.nodata })

/-- `BoundingBox.min_pixel_bounds` (boundingbox.py lines 23-49).  The guard
`if not self._min_pixel_bounds` recomputes when the cache is `None` or an
empty list (both falsy in Python); otherwise the cache is returned.
Recomputing opens the backing raster and scans it against the lazily-read
`self.nodata_value`. -/
def BoundingBox.minPixelBoundsM (b : BoundingBox) (w : World) :
    Option (List Int × BoundingBox) :=
  if b.cachePixel.getD [] ≠ [] then some (b.cachePixel.getD [], b)
  else
    match w.fs b.path with
    | none => none
    | some r =>
      match b.nodataM w with
      | none => none
      | some (nv, b1) =>
        let v := computeMinPixelBounds nv r.grid
        some (v, { b1 with cachePixel := some v })

/-- `BoundingBox.min_geographic_bounds` (boundingbox.py lines 51-68):
destructure the pixel bounds as `x_min, x_max, y_min, y_max`, read the
geotransform, and project each pixel coordinate as
`origin + pixel * resolution`, caching the result
`[x_min_proj, y_min_proj, x_max_proj, y_max_proj]`. -/
def BoundingBox.minGeographicBoundsM (b : BoundingBox) (w : World) :
    Option (List Int × BoundingBox) :=
  if b.cacheGeo.getD [] ≠ [] then some (b.cacheGeo.getD [], b)
  else
    match b.minPixelBoundsM w with
    | none => none
    | some (pb, b1) =>
      match pb with
      | [x_min, x_max, y_min, y_max] =>
        match w.fs b1.path with
        | none => none
        | some r =>
          let v := [r.gt0 + x_min * r.gt1, r.gt3 + y_min * r.gt5,
                    r.gt0 + x_max * r.gt1, r.gt3 + y_max * r.gt5]
          some (v, { b1 with cacheGeo := some v })
      | _ => none

/-- Model of the raster I/O collaborator `gdal.Translate` with
`projWin = [ulx, uly, lrx, lry]`: window the grid to the pixel rectangle
that the geographic window corresponds to under the raster's own
geotransform, and move the origin accordingly. -/
def Raster.translate (r : Raster) (projWin : List Int) : Raster :=
  match projWin with
  | [ulx, uly, lrx, lry] =>
    let xoff := ((ulx - r.gt0) / r.gt1).toNat
    let yoff := ((uly - r.gt3) / r.gt5).toNat
    let xsize := ((lrx - ulx) / r.gt1).toNat
    let ysize := ((lry - uly) / r.gt5).toNat
    { r with
      gt0 := r.gt0 + (xoff : Int) * r.gt1
      gt3 := r.gt3 + (yoff : Int) * r.gt5
      grid := ((r.grid.drop yoff).take ysize).map fun row =>
        (row.drop xoff).take xsize }
  | _ => r

/-- The per-pixel rule of the `gdal_calc` expression
`A * (B != bn) + ((B == bn) * ln)` built at boundingbox.py lines 91-92,
where `bn` is the bounding box's nodata value and `ln` the input layer's. -/
def calcPixel (bn ln a b : Int) : Int :=
  a * (if b ≠ bn then 1 else 0) + (if b = bn then 1 else 0) * ln

/-- Model of the raster I/O collaborator `gdal_calc.Calc` over two aligned
rasters `A` and `B`, with output `NoDataValue = ln` (boundingbox.py lines
95-97). -/
def gdalCalc (bn ln : Int) (a b : Raster) : Raster :=
  { nodata := ln
    grid := List.zipWith (fun ra rb => List.zipWith (calcPixel bn ln) ra rb)
      a.grid b.grid
    gt0 := a.gt0, gt1 := a.gt1, gt2 := a.gt2
    gt3 := a.gt3, gt4 := a.gt4, gt5 := a.gt5 }

/-- The self-initialization step of `BoundingBox.crop` (boundingbox.py
lines 80-84): on the first call only, rewrite the bounding box's own
backing raster to a fresh temp file windowed to its geographic bounds and
flip the flag. -/
def BoundingBox.selfInit (b : BoundingBox) (w : World) :
    Option (BoundingBox × World) :=
  if b.initialized then some (b, w)
  else
    match mktmp w with
    | (bboxPath, w1) =>
      match w1.fs b.path with
      | none => none
      | some rSelf =>
        match b.minGeographicBoundsM w1 with
        | none => none
        | some (geo, b1) =>
          some ({ b1 with path := bboxPath, initialized := true },
                w1.write bboxPath (rSelf.translate geo))

/-- The main body of `BoundingBox.crop` (boundingbox.py lines 86-101):
window the input layer to the bounding box's geographic bounds into a
fresh temp file, apply the nodata-mask `gdal_calc` expression against the
bounding box's own raster into another fresh temp file, and return a new
`Layer` with the input's year and interpretation. -/
def BoundingBox.cropMain (b : BoundingBox) (l : Layer) (w : World) :
    Option (Layer × Layer × BoundingBox × World) :=
  match mktmp w with
  | (tmpPath, w1) =>
    match w1.fs l.path with
    | none => none
    | some rL =>
      match b.minGeographicBoundsM w1 with
      | none => none
      | some (geo, b1) =>
        match b1.nodataM (w1.write tmpPath (rL.translate geo)) with
        | none => none
        | some (bn, b2) =>
          match l.nodataM (w1.write tmpPath (rL.translate geo)) with
          | none => none
          | some (ln, l1) =>
            match mktmp (w1.write tmpPath (rL.translate geo)) with
            | (outPath, w3) =>
              match w3.fs tmpPath, w3.fs b2.path with
              | some rA, some rB =>
                some (⟨outPath, l.year, l.interpretation, none⟩, l1, b2,
                      w3.write outPath (gdalCalc bn ln rA rB))
              | _, _ => none

/-- `BoundingBox.crop` (boundingbox.py lines 70-101): self-initialize once,
then crop the given layer. -/
def BoundingBox.crop (b : BoundingBox) (l : Layer) (w : World) :
    Option (Layer × Layer × BoundingBox × World) :=
  match b.selfInit w with
  | none => none
  | some (b1, w1) => b1.cropMain l w1

/-- Executable well-formedness of the bounds caches: a present pixel or
geographic bounds cache is a 4-element list, as every computed one is. -/
def BoundingBox.wfCaches (b : BoundingBox) : Bool :=
  (match b.cachePixel with | none => true | some v => v.length == 4) &&
  (match b.cacheGeo with | none => true | some v => v.length == 4)

theorem wfCaches_pixel {b : BoundingBox} (h : b.wfCaches = true) {v : List Int}
    (hv : b.cachePixel = some v) : v.length = 4 := by
  simp only [BoundingBox.wfCaches, hv, Bool.and_eq_true, beq_iff_eq] at h
  exact h.1

theorem wfCaches_geo {b : BoundingBox} (h : b.wfCaches = true) {v : List Int}
    (hv : b.cacheGeo = some v) : v.length = 4 := by
  simp only [BoundingBox.wfCaches, hv, Bool.and_eq_true, beq_iff_eq] at h
  exact h.2

theorem wfCaches_intro {b : BoundingBox}
    (hp : ∀ v, b.cachePixel = some v → v.length = 4)
    (hg : ∀ v, b.cacheGeo = some v → v.length = 4) : b.wfCaches = true := by
  simp only [BoundingBox.wfCaches, Bool.and_eq_true]
  constructor
  · cases hv : b.cachePixel with
    | none => rfl
    | some v => simpa using hp v hv
  · cases hv : b.cacheGeo with
    | none => rfl
    | some v => simpa using hg v hv

theorem World.write_fs_self (w : World) (p : Path) (r : Raster) :
    (w.write p r).fs p = some r := by
  simp [World.write]

theorem World.write_fs_ne (w : World) {p q : Path} (r : Raster) (h : q ≠ p) :
    (w.write p r).fs q = w.fs q := by
  simp [World.write, h]

theorem World.live_lt {w : World} (hok : w.ok) {n : Nat}
    (h : (w.fs (Path.tmp n)).isSome = true) : n < w.nextTmp := by
  by_contra hge
  rw [hok n (by omega)] at h
  simp at h

theorem World.live_ne_tmp {w : World} (hok : w.ok) {p : Path}
    (h : (w.fs p).isSome = true) {n : Nat} (hn : w.nextTmp ≤ n) :
    p ≠ Path.tmp n := by
  intro he
  subst he
  have := World.live_lt hok h
  omega

theorem Raster.translate_nodata (r : Raster) (pw : List Int) :
    (r.translate pw).nodata = r.nodata := by
  unfold Raster.translate
  rcases pw with _ | ⟨a, _ | ⟨b, _ | ⟨c, _ | ⟨d, _ | e⟩⟩⟩⟩ <;> rfl

theorem computeMinPixelBounds_length (nodata : Int) (grid : List (List Int)) :
    (computeMinPixelBounds nodata grid).length = 4 := rfl

theorem Layer.nodataM_run {l : Layer} {w : World} {r : Raster}
    (h : w.fs l.path = some r) :
    ∃ nv l1, l.nodataM w = some (nv, l1) ∧
      l1.path = l.path ∧ l1.year = l.year ∧
      l1.interpretation = l.interpretation ∧ l1.cacheNodata = some nv ∧
      (l.cacheNodata = none → nv = r.nodata) ∧
      (∀ x, l.cacheNodata = some x → nv = x ∧ l1 = l) := by
  cases hc : l.cacheNodata with
  | none =>
    refine ⟨r.nodata, { l with cacheNodata := some r.nodata }, ?_, rfl, rfl, rfl, rfl,
      fun _ => rfl, fun x hx => by simp at hx⟩
    simp [Layer.nodataM, hc, h]
  | some v =>
    refine ⟨v, l, ?_, rfl, rfl, rfl, hc, fun hn => by simp at hn,
      fun x hx => by injection hx with h1; exact ⟨h1, rfl⟩⟩
    simp [Layer.nodataM, hc]

theorem BoundingBox.nodataM_spec {b : BoundingBox} {w : World} {r : Raster}
    (h : w.fs b.path = some r) :
    ∃ nv b1, b.nodataM w = some (nv, b1) ∧
      b1.path = b.path ∧ b1.initialized = b.initialized ∧
      b1.cachePixel = b.cachePixel ∧ b1.cacheGeo = b.cacheGeo ∧
      b1.cacheNodata = some nv ∧
      (b.cacheNodata = none → nv = r.nodata) ∧
      (∀ x, b.cacheNodata = some x → nv = x ∧ b1 = b) := by
  cases hc : b.cacheNodata with
  | none =>
    refine ⟨r.nodata, { b with cacheNodata := some r.nodata }, ?_, rfl, rfl, rfl, rfl, rfl,
      fun _ => rfl, fun x hx => by simp at hx⟩
    simp [BoundingBox.nodataM, hc, h]
  | some v =>
    refine ⟨v, b, ?_, rfl, rfl, rfl, rfl, hc,
      fun hn => by simp at hn,
      fun x hx => by injection hx with h1; exact ⟨h1, rfl⟩⟩
    simp [BoundingBox.nodataM, hc]

theorem BoundingBox.minPixelBoundsM_spec {b : BoundingBox} {w : World} {r : Raster}
    (hwf : b.wfCaches = true) (h : w.fs b.path = some r) :
    ∃ v b1, b.minPixelBoundsM w = some (v, b1) ∧ v.length = 4 ∧
      b1.path = b.path ∧ b1.initialized = b.initialized ∧
      b1.cachePixel = some v ∧ b1.cacheGeo = b.cacheGeo ∧ b1.wfCaches = true ∧
      (∀ x, b.cachePixel = some x → v = x ∧ b1 = b) ∧
      (∀ x, b.cacheNodata = some x → b1.cacheNodata = some x) ∧
      (b.cacheNodata = none →
        b1.cacheNodata = none ∨ b1.cacheNodata = some r.nodata) ∧
      (b.cachePixel = none → b.cacheNodata = none →
        v = computeMinPixelBounds r.nodata r.grid ∧
          b1.cacheNodata = some r.nodata) := by
  cases hc : b.cachePixel with
  | some v =>
    have hlen := wfCaches_pixel hwf hc
    have hne : v ≠ [] := by
      intro he
      rw [he] at hlen
      simp at hlen
    refine ⟨v, b, ?_, hlen, rfl, rfl, hc, rfl, hwf,
      fun x hx => by injection hx with h1; exact ⟨h1, rfl⟩,
      fun x hx => hx,
      fun hcn => Or.inl hcn,
      fun hn => by simp at hn⟩
    simp [BoundingBox.minPixelBoundsM, hc, hne]
  | none =>
    obtain ⟨nv, b1', hnod, hpath, hinit, hpix, hgeo, hcnod, hnone, hsome⟩ :=
      BoundingBox.nodataM_spec h
    refine ⟨computeMinPixelBounds nv r.grid,
      { b1' with cachePixel := some (computeMinPixelBounds nv r.grid) },
      ?_, computeMinPixelBounds_length nv r.grid, hpath, hinit, rfl,
      by simpa using hgeo, ?_, fun x hx => by simp at hx, ?_,
      fun hcn => Or.inr (by simp only; rw [hcnod, hnone hcn]), ?_⟩
    · simp [BoundingBox.minPixelBoundsM, hc, h, hnod]
    · refine wfCaches_intro ?_ ?_
      · intro x hx
        simp only [Option.some.injEq] at hx
        rw [← hx]
        exact computeMinPixelBounds_length nv r.grid
      · intro x hx
        simp only at hx
        rw [hgeo] at hx
        exact wfCaches_geo hwf hx
    · intro x hx
      simp only
      rw [hcnod, (hsome x hx).1]
    · intro _ hcn
      have hnv := hnone hcn
      subst hnv
      exact ⟨rfl, by simpa using hcnod⟩

theorem BoundingBox.minGeographicBoundsM_spec {b : BoundingBox} {w : World}
    {r : Raster} (hwf : b.wfCaches = true) (h : w.fs b.path = some r) :
    ∃ vg b1, b.minGeographicBoundsM w = some (vg, b1) ∧ vg.length = 4 ∧
      b1.path = b.path ∧ b1.initialized = b.initialized ∧
      b1.cacheGeo = some vg ∧ b1.wfCaches = true ∧
      (∀ x, b.cachePixel = some x → b1.cachePixel = some x) ∧
      (∀ x, b.cacheNodata = some x → b1.cacheNodata = some x) ∧
      (b.cacheNodata = none →
        b1.cacheNodata = none ∨ b1.cacheNodata = some r.nodata) ∧
      (∀ x, b.cacheGeo = some x → vg = x ∧ b1 = b) := by
  cases hc : b.cacheGeo with
  | some v =>
    have hlen := wfCaches_geo hwf hc
    have hne : v ≠ [] := by
      intro he
      rw [he] at hlen
      simp at hlen
    refine ⟨v, b, ?_, hlen, rfl, rfl, hc, hwf, fun x hx => hx, fun x hx => hx,
      fun hcn => Or.inl hcn,
      fun x hx => by injection hx with h1; exact ⟨h1, rfl⟩⟩
    simp [BoundingBox.minGeographicBoundsM, hc, hne]
  | none =>
    obtain ⟨v, b1, hpix, hlen, hpath, hinit, hcpix, hcgeo, hwf1, hold, hnod,
      hnodback, _⟩ := BoundingBox.minPixelBoundsM_spec hwf h
    obtain ⟨a0, a1, a2, a3, hv⟩ : ∃ a0 a1 a2 a3, v = [a0, a1, a2, a3] := by
      rcases v with _ | ⟨a0, _ | ⟨a1, _ | ⟨a2, _ | ⟨a3, _ | rest⟩⟩⟩⟩
      · simp at hlen
      · simp at hlen
      · simp at hlen
      · simp at hlen
      · exact ⟨a0, a1, a2, a3, rfl⟩
      · simp only [List.length_cons, List.length_nil] at hlen
        omega
    subst hv
    have hfs1 : w.fs b1.path = some r := by rw [hpath]; exact h
    refine ⟨[r.gt0 + a0 * r.gt1, r.gt3 + a2 * r.gt5,
             r.gt0 + a1 * r.gt1, r.gt3 + a3 * r.gt5],
      { b1 with cacheGeo := some [r.gt0 + a0 * r.gt1, r.gt3 + a2 * r.gt5,
        r.gt0 + a1 * r.gt1, r.gt3 + a3 * r.gt5] },
      ?_, rfl, hpath, hinit, rfl, ?_, ?_, ?_,
      fun hcn => by simp only; exact hnodback hcn,
      fun x hx => by simp at hx⟩
    · simp [BoundingBox.minGeographicBoundsM, hc, hpix, hfs1]
    · refine wfCaches_intro ?_ ?_
      · intro x hx
        simp only at hx
        rw [hcpix] at hx
        injection hx with h1
        rw [← h1]
        rfl
      · intro x hx
        simp only [Option.some.injEq] at hx
        rw [← hx]
        rfl
    · intro x hx
      simp only
      obtain ⟨h1, h2⟩ := hold x hx
      rw [hcpix, h1]
    · intro x hx
      simp only
      exact hnod x hx

theorem wfCaches_congr {b b' : BoundingBox}
    (hp : b'.cachePixel = b.cachePixel) (hg : b'.cacheGeo = b.cacheGeo)
    (h : b.wfCaches = true) : b'.wfCaches = true := by
  refine wfCaches_intro ?_ ?_
  · intro v hv
    rw [hp] at hv
    exact wfCaches_pixel h hv
  · intro v hv
    rw [hg] at hv
    exact wfCaches_geo h hv

theorem BoundingBox.selfInit_spec {b : BoundingBox} {w : World} {r : Raster}
    (hwf : b.wfCaches = true) (hok : w.ok) (h : w.fs b.path = some r) :
    ∃ b1 w1, b.selfInit w = some (b1, w1) ∧
      b1.initialized = true ∧ b1.wfCaches = true ∧ w1.ok ∧
      w1.nextTmp = w.nextTmp + (if b.initialized then 0 else 1) ∧
      (∀ q, (w.fs q).isSome = true → w1.fs q = w.fs q) ∧
      (∃ rb, w1.fs b1.path = some rb ∧ rb.nodata = r.nodata) ∧
      (∀ x, b.cachePixel = some x → b1.cachePixel = some x) ∧
      (∀ x, b.cacheGeo = some x → b1.cacheGeo = some x) ∧
      (∀ x, b.cacheNodata = some x → b1.cacheNodata = some x) ∧
      (b.cacheNodata = none →
        b1.cacheNodata = none ∨ b1.cacheNodata = some r.nodata) ∧
      (b.initialized = true → b1 = b ∧ w1 = w) ∧
      (b.initialized = false → b1.path = Path.tmp w.nextTmp) := by
  cases hi : b.initialized with
  | true =>
    refine ⟨b, w, ?_, hi, hwf, hok, by simp, fun q _ => rfl,
      ⟨r, h, rfl⟩, fun x hx => hx, fun x hx => hx, fun x hx => hx,
      fun hcn => Or.inl hcn, fun _ => ⟨rfl, rfl⟩, fun hf => nomatch hf⟩
    simp [BoundingBox.selfInit, hi]
  | false =>
    have h' : ({ w with nextTmp := w.nextTmp + 1 } : World).fs b.path = some r := h
    obtain ⟨geo, b1, hgeoM, hglen, hpath, hinit, hcgeo, hwf1, hpp, hnp, hnb,
      hgold⟩ := BoundingBox.minGeographicBoundsM_spec
        (w := { w with nextTmp := w.nextTmp + 1 }) hwf h'
    refine ⟨{ b1 with path := Path.tmp w.nextTmp, initialized := true },
      ({ w with nextTmp := w.nextTmp + 1 } : World).write (Path.tmp w.nextTmp)
        (r.translate geo), ?_, ?_, ?_, ?_, ?_, ?_, ?_, ?_, ?_, ?_, ?_, ?_, ?_⟩
    · unfold BoundingBox.selfInit
      rw [hi]
      simp only [Bool.false_eq_true, if_false, mktmp]
      rw [h, hgeoM]
    · rfl
    · exact wfCaches_congr (by simp only) (by simp only) hwf1
    · intro n hn
      simp only [World.write] at hn ⊢
      rw [if_neg]
      · exact hok n (by omega)
      · intro he
        injection he with he'
        omega
    · simp [World.write]
    · intro q hq
      simp only [World.write]
      rw [if_neg (World.live_ne_tmp hok hq (Nat.le_refl w.nextTmp))]
    · exact ⟨r.translate geo, by simp [World.write], Raster.translate_nodata r geo⟩
    · intro x hx
      simp only
      exact hpp x hx
    · intro x hx
      simp only
      rw [hcgeo, (hgold x hx).1]
    · intro x hx
      simp only
      exact hnp x hx
    · intro hcn
      simp only
      exact hnb hcn
    · intro ht
      exact nomatch ht
    · intro _
      rfl

theorem BoundingBox.cropMain_spec {b : BoundingBox} {l : Layer} {w : World}
    {rB rL : Raster} (hwf : b.wfCaches = true) (hok : w.ok)
    (hb : w.fs b.path = some rB) (hl : w.fs l.path = some rL) :
    ∃ cl l1 b2 w4 geo bn ln,
      b.cropMain l w = some (cl, l1, b2, w4) ∧
      cl.path = Path.tmp (w.nextTmp + 1) ∧
      cl.year = l.year ∧ cl.interpretation = l.interpretation ∧
      cl.cacheNodata = none ∧
      w.fs cl.path = none ∧
      l1.path = l.path ∧ l1.year = l.year ∧ l1.interpretation = l.interpretation ∧
      b2.path = b.path ∧ b2.initialized = b.initialized ∧ b2.wfCaches = true ∧
      (∀ x, b.cachePixel = some x → b2.cachePixel = some x) ∧
      (∀ x, b.cacheGeo = some x → b2.cacheGeo = some x) ∧
      w4.ok ∧ w4.nextTmp = w.nextTmp + 2 ∧
      (∀ q, (w.fs q).isSome = true → w4.fs q = w.fs q) ∧
      geo.length = 4 ∧
      w4.fs cl.path = some (gdalCalc bn ln (rL.translate geo) rB) ∧
      (∀ x, b.cacheNodata = some x → bn = x) ∧
      (b.cacheNodata = none → bn = rB.nodata) ∧
      (∀ x, l.cacheNodata = some x → ln = x) ∧
      (l.cacheNodata = none → ln = rL.nodata) := by
  have hb1 : ({ w with nextTmp := w.nextTmp + 1 } : World).fs b.path = some rB := hb
  obtain ⟨geo, bg, hgeoM, hglen, hgpath, hginit, hgcgeo, hgwf, hgpp, hgnp, hgnb,
    hgold⟩ := BoundingBox.minGeographicBoundsM_spec
      (w := { w with nextTmp := w.nextTmp + 1 }) hwf hb1
  have hbsome : (w.fs b.path).isSome = true := by rw [hb]; rfl
  have hlsome : (w.fs l.path).isSome = true := by rw [hl]; rfl
  have hbne : b.path ≠ Path.tmp w.nextTmp :=
    World.live_ne_tmp hok hbsome (Nat.le_refl w.nextTmp)
  have hlne : l.path ≠ Path.tmp w.nextTmp :=
    World.live_ne_tmp hok hlsome (Nat.le_refl w.nextTmp)
  have hbne2 : b.path ≠ Path.tmp (w.nextTmp + 1) :=
    World.live_ne_tmp hok hbsome (by omega)
  have hlne2 : l.path ≠ Path.tmp (w.nextTmp + 1) :=
    World.live_ne_tmp hok hlsome (by omega)
  have hb2 : (({ w with nextTmp := w.nextTmp + 1 } : World).write
      (Path.tmp w.nextTmp) (rL.translate geo)).fs bg.path = some rB := by
    rw [hgpath, World.write_fs_ne _ _ hbne]
    exact hb
  obtain ⟨bn, b2, hnodM, hb2path, hb2init, hb2pix, hb2geo, hb2cn, hbnone,
    hbsomef⟩ := BoundingBox.nodataM_spec hb2
  have hl2 : (({ w with nextTmp := w.nextTmp + 1 } : World).write
      (Path.tmp w.nextTmp) (rL.translate geo)).fs l.path = some rL := by
    rw [World.write_fs_ne _ _ hlne]
    exact hl
  obtain ⟨ln, l1, hlnod, hl1path, hl1year, hl1interp, hl1cn, hlnone, hlsomef⟩ :=
    Layer.nodataM_run hl2
  have hA : (({ w with nextTmp := w.nextTmp + 1 } : World).write
      (Path.tmp w.nextTmp) (rL.translate geo)).fs (Path.tmp w.nextTmp) =
      some (rL.translate geo) := World.write_fs_self _ _ _
  have hB : (({ w with nextTmp := w.nextTmp + 1 } : World).write
      (Path.tmp w.nextTmp) (rL.translate geo)).fs b2.path = some rB := by
    rw [hb2path]
    exact hb2
  refine ⟨⟨Path.tmp (w.nextTmp + 1), l.year, l.interpretation, none⟩, l1, b2,
    World.write
      (mktmp (World.write ({ w with nextTmp := w.nextTmp + 1 } : World)
        (Path.tmp w.nextTmp) (rL.translate geo))).2
      (Path.tmp (w.nextTmp + 1)) (gdalCalc bn ln (rL.translate geo) rB),
    geo, bn, ln, ?_, rfl, rfl, rfl, rfl, hok (w.nextTmp + 1) (by omega),
    hl1path, hl1year, hl1interp, hb2path.trans hgpath, hb2init.trans hginit,
    ?_, ?_, ?_, ?_, rfl, ?_, hglen, ?_, ?_, ?_, ?_, hlnone⟩
  · unfold BoundingBox.cropMain
    simp only [mktmp, hl, hgeoM, hnodM, hlnod, hA, hB]
    rfl
  · exact wfCaches_congr hb2pix hb2geo hgwf
  · intro x hx
    rw [hb2pix]
    exact hgpp x hx
  · intro x hx
    rw [hb2geo, hgcgeo, (hgold x hx).1]
  · intro n hn
    simp only [World.write, mktmp] at hn ⊢
    rw [if_neg, if_neg]
    · exact hok n (by omega)
    · intro he
      injection he with he'
      omega
    · intro he
      injection he with he'
      omega
  · intro q hq
    simp only [World.write, mktmp]
    rw [if_neg (World.live_ne_tmp hok hq (by omega)),
      if_neg (World.live_ne_tmp hok hq (Nat.le_refl w.nextTmp))]
  · exact World.write_fs_self _ _ _
  · intro x hx
    exact (hbsomef x (hgnp x hx)).1
  · intro hcn
    rcases hgnb hcn with hn | hs
    · exact hbnone hn
    · exact (hbsomef _ hs).1
  · intro x hx
    exact (hlsomef x hx).1

theorem BoundingBox.crop_spec {b : BoundingBox} {l : Layer} {w : World}
    {rB rL : Raster} (hwf : b.wfCaches = true) (hok : w.ok)
    (hb : w.fs b.path = some rB) (hl : w.fs l.path = some rL) :
    ∃ cl l1 b2 w4 geo bn ln,
      b.crop l w = some (cl, l1, b2, w4) ∧
      cl.path = Path.tmp (w.nextTmp + (if b.initialized then 1 else 2)) ∧
      cl.year = l.year ∧ cl.interpretation = l.interpretation ∧
      w.fs cl.path = none ∧
      l1.path = l.path ∧ l1.year = l.year ∧ l1.interpretation = l.interpretation ∧
      b2.path = (if b.initialized then b.path else Path.tmp w.nextTmp) ∧
      b2.initialized = true ∧ b2.wfCaches = true ∧
      (∀ x, b.cachePixel = some x → b2.cachePixel = some x) ∧
      (∀ x, b.cacheGeo = some x → b2.cacheGeo = some x) ∧
      w4.ok ∧ (w4.fs b2.path).isSome = true ∧
      (∀ q, (w.fs q).isSome = true → w4.fs q = w.fs q) ∧
      w4.nextTmp = w.nextTmp + (if b.initialized then 2 else 3) ∧
      geo.length = 4 ∧
      (∃ rBc, w4.fs cl.path = some (gdalCalc bn ln (rL.translate geo) rBc) ∧
        rBc.nodata = rB.nodata ∧ w4.fs b2.path = some rBc ∧
        (b.cacheNodata = none → bn = rBc.nodata) ∧
        (∀ x, b.cacheNodata = some x → bn = x)) ∧
      (∀ x, l.cacheNodata = some x → ln = x) ∧
      (l.cacheNodata = none → ln = rL.nodata) := by
  obtain ⟨b1, w1, hsi, hi1, hwf1, hok1, hnt1, hpres1, ⟨rb, hfsb1, hrbnod⟩,
    hpp1, hgp1, hnp1, hnb1, htrue, hfalse⟩ :=
    BoundingBox.selfInit_spec hwf hok hb
  have hl1 : w1.fs l.path = some rL := by
    rw [hpres1 l.path (by rw [hl]; rfl)]
    exact hl
  obtain ⟨cl, l1, b2, w4, geo, bn, ln, hcm, hclpath, hclyear, hclinterp, hclcn,
    hw1cl, hl1path, hl1year, hl1interp, hb2path, hb2init, hb2wf, hb2pp, hb2gp,
    hok4, hnt4, hpres4, hglen, hfscl, hbnsome, hbnnone, hlnsome, hlnnone⟩ :=
    BoundingBox.cropMain_spec hwf1 hok1 hfsb1 hl1
  have hcrop : b.crop l w = some (cl, l1, b2, w4) := by
    unfold BoundingBox.crop
    rw [hsi]
    exact hcm
  have hfsb1some : (w1.fs b1.path).isSome = true := by rw [hfsb1]; rfl
  have hb2path' : b2.path = b1.path := hb2path
  have hw4b2 : w4.fs b2.path = some rb := by
    rw [hb2path', hpres4 b1.path hfsb1some]
    exact hfsb1
  refine ⟨cl, l1, b2, w4, geo, bn, ln, hcrop, ?_, hclyear, hclinterp, ?_,
    hl1path, hl1year, hl1interp, ?_, hb2init.trans hi1, hb2wf, ?_, ?_, hok4,
    by rw [hw4b2]; rfl, ?_, ?_, hglen,
    ⟨rb, hfscl, hrbnod, hw4b2, ?_, ?_⟩, hlnsome, hlnnone⟩
  · rw [hclpath, hnt1]
    cases hbi : b.initialized <;> simp
  · rw [hclpath, hnt1]
    cases hbi : b.initialized
    · simp only [Bool.false_eq_true, if_false]
      exact hok (w.nextTmp + 1 + 1) (by omega)
    · simp only [if_true]
      exact hok (w.nextTmp + 0 + 1) (by omega)
  · rw [hb2path']
    cases hbi : b.initialized
    · simp only [Bool.false_eq_true, if_false]
      exact hfalse hbi
    · simp only [if_true]
      rw [(htrue hbi).1]
  · intro x hx
    exact hb2pp x (hpp1 x hx)
  · intro x hx
    exact hb2gp x (hgp1 x hx)
  · intro q hq
    rw [hpres4 q (by rw [hpres1 q hq]; exact hq), hpres1 q hq]
  · rw [hnt4, hnt1]
    cases hbi : b.initialized <;> simp
  · intro hcn
    rcases hnb1 hcn with hn1 | hs1
    · exact hbnnone hn1
    · rw [hbnsome rB.nodata hs1, hrbnod]
  · intro x hx
    exact hbnsome x (hnp1 x hx)

theorem minPixelBoundsM_cache_hit {b : BoundingBox} {v : List Int}
    (hc : b.cachePixel = some v) (hv : v ≠ []) (w : World) :
    b.minPixelBoundsM w = some (v, b) := by
  unfold BoundingBox.minPixelBoundsM
  rw [hc]
  simp [hv]

theorem minGeographicBoundsM_cache_hit {b : BoundingBox} {v : List Int}
    (hc : b.cacheGeo = some v) (hv : v ≠ []) (w : World) :
    b.minGeographicBoundsM w = some (v, b) := by
  unfold BoundingBox.minGeographicBoundsM
  rw [hc]
  simp [hv]

theorem calcPixel_eq (bn ln a b : Int) :
    calcPixel bn ln a b = if b = bn then ln else a := by
  unfold calcPixel
  by_cases h : b = bn <;> simp [h]

theorem gdalCalc_pixel (bn ln : Int) (a b : Raster) (i j : Nat)
    (hi : i < (gdalCalc bn ln a b).grid.length)
    (hj : j < ((gdalCalc bn ln a b).grid.getD i []).length) :
    ((gdalCalc bn ln a b).grid.getD i []).getD j 0 =
      if (b.grid.getD i []).getD j 0 = bn then ln
      else (a.grid.getD i []).getD j 0 := by
  have hlen : (gdalCalc bn ln a b).grid.length =
      min a.grid.length b.grid.length := by
    simp [gdalCalc]
  have hia : i < a.grid.length := by rw [hlen] at hi; omega
  have hib : i < b.grid.length := by rw [hlen] at hi; omega
  have hrow : (gdalCalc bn ln a b).grid.getD i [] =
      List.zipWith (calcPixel bn ln) (a.grid.getD i []) (b.grid.getD i []) := by
    rw [List.getD_eq_getElem _ _ hi, List.getD_eq_getElem _ _ hia,
      List.getD_eq_getElem _ _ hib]
    simp only [gdalCalc]
    rw [List.getElem_zipWith]
  rw [hrow] at hj ⊢
  have hlen2 : (List.zipWith (calcPixel bn ln) (a.grid.getD i [])
      (b.grid.getD i [])).length =
      min (a.grid.getD i []).length (b.grid.getD i []).length := by
    simp
  have hja : j < (a.grid.getD i []).length := by rw [hlen2] at hj; omega
  have hjb : j < (b.grid.getD i []).length := by rw [hlen2] at hj; omega
  rw [List.getD_eq_getElem _ _ hj, List.getD_eq_getElem _ _ hja,
    List.getD_eq_getElem _ _ hjb, List.getElem_zipWith]
  exact calcPixel_eq bn ln _ _

/-- C9: `crop` returns a new layer backed by a freshly allocated temporary
file, carrying the same year and interpretation as the input layer, and
leaves the input layer unchanged: its path, year, interpretation and
on-disk raster contents are the same before and after the call. -/
theorem crop_fresh_output_input_unchanged {b : BoundingBox} {l : Layer}
    {w : World} {rB rL : Raster} (hwf : b.wfCaches = true) (hok : w.ok)
    (hb : w.fs b.path = some rB) (hl : w.fs l.path = some rL) :
    ∃ cl l1 b2 w4, b.crop l w = some (cl, l1, b2, w4) ∧
      (∃ n, cl.path = Path.tmp n ∧ w.fs cl.path = none) ∧
      cl.year = l.year ∧ cl.interpretation = l.interpretation ∧
      l1.path = l.path ∧ l1.year = l.year ∧ l1.interpretation = l.interpretation ∧
      w4.fs l.path = w.fs l.path := by
  obtain ⟨cl, l1, b2, w4, geo, bn, ln, hcrop, hclpath, hclyear, hclinterp,
    hclnone, hl1path, hl1year, hl1interp, _, _, _, _, _, _, _, hpres, _, _,
    _, _, _⟩ := BoundingBox.crop_spec hwf hok hb hl
  exact ⟨cl, l1, b2, w4, hcrop,
    ⟨w.nextTmp + (if b.initialized then 1 else 2), hclpath, hclnone⟩,
    hclyear, hclinterp, hl1path, hl1year, hl1interp,
    hpres l.path (by rw [hl]; rfl)⟩

/-- C2: `crop` is nodata-mask-correct.  For a bounding box and an input
layer whose nodata values have not been cached yet (they are read from the
rasters' metadata), the raster written for the cropped layer is the
`gdal_calc` combination of the geographically windowed input `A` and the
bounding box's own (self-cropped) raster `B`: at every pixel position of
the cropped window, if `B`'s pixel equals the bounding box's nodata value
then the output pixel is the input layer's own nodata value, and otherwise
it is the input layer's windowed pixel value at that position. -/
theorem crop_nodata_mask {b : BoundingBox} {l : Layer} {w : World}
    {rB rL : Raster} (hwf : b.wfCaches = true) (hok : w.ok)
    (hb : w.fs b.path = some rB) (hl : w.fs l.path = some rL)
    (hbn : b.cacheNodata = none) (hln : l.cacheNodata = none) :
    ∃ cl l1 b2 w4 geo B OUT, b.crop l w = some (cl, l1, b2, w4) ∧
      w4.fs b2.path = some B ∧ B.nodata = rB.nodata ∧
      w4.fs cl.path = some OUT ∧
      OUT = gdalCalc B.nodata rL.nodata (rL.translate geo) B ∧
      (∀ i j, i < OUT.grid.length → j < (OUT.grid.getD i []).length →
        (OUT.grid.getD i []).getD j 0 =
          (if (B.grid.getD i []).getD j 0 = B.nodata then rL.nodata
           else ((rL.translate geo).grid.getD i []).getD j 0)) := by
  obtain ⟨cl, l1, b2, w4, geo, bn, ln, hcrop, _, _, _, _, _, _, _, _, _, _,
    _, _, _, _, _, _, _, ⟨rBc, hfscl, hrBcnod, hw4b2, hbnnone, _⟩,
    _, hlnnone⟩ := BoundingBox.crop_spec hwf hok hb hl
  have hbneq : bn = rBc.nodata := hbnnone hbn
  have hlneq : ln = rL.nodata := hlnnone hln
  subst hbneq hlneq
  refine ⟨cl, l1, b2, w4, geo, rBc, gdalCalc rBc.nodata rL.nodata
    (rL.translate geo) rBc, hcrop, hw4b2, hrBcnod, hfscl, rfl, ?_⟩
  intro i j hi hj
  exact gdalCalc_pixel rBc.nodata rL.nodata (rL.translate geo) rBc i j hi hj

/-- A sequence of `crop` calls on the same bounding box, threading its
mutated state and the world. -/
def cropSeq (b : BoundingBox) (w : World) : List Layer → Option (BoundingBox × World)
  | [] => some (b, w)
  | l :: ls =>
    match b.crop l w with
    | none => none
    | some (_, _, b', w') => cropSeq b' w' ls

theorem cropSeq_initialized {b : BoundingBox} {w : World}
    (hwf : b.wfCaches = true) (hok : w.ok) (hinit : b.initialized = true)
    (hb : (w.fs b.path).isSome = true) :
    ∀ ls : List Layer, (∀ x ∈ ls, (w.fs x.path).isSome = true) →
    ∃ b2 w2, cropSeq b w ls = some (b2, w2) ∧ b2.path = b.path := by
  intro ls
  induction ls generalizing b w with
  | nil => exact fun _ => ⟨b, w, rfl, rfl⟩
  | cons l ls ih =>
    intro hlive
    obtain ⟨rB, hrB⟩ := Option.isSome_iff_exists.1 hb
    obtain ⟨rL, hrL⟩ := Option.isSome_iff_exists.1 (hlive l (by simp))
    obtain ⟨cl, l1, b', w', geo, bn, ln, hcrop, _, _, _, _, _, _, _, hb'path,
      hb'init, hb'wf, _, _, hok', hb'live, hpres, _, _, _, _, _⟩ :=
      BoundingBox.crop_spec hwf hok hrB hrL
    have hb'path' : b'.path = b.path := by
      rw [hb'path, if_pos hinit]
    obtain ⟨b2, w2, hseq, hb2path⟩ := ih hb'wf hok' hb'init hb'live
      (fun x hx => by
        rw [hpres x.path (hlive x (by simp [hx]))]
        exact hlive x (by simp [hx]))
    refine ⟨b2, w2, ?_, hb2path.trans hb'path'⟩
    unfold cropSeq
    rw [hcrop]
    exact hseq

/-- C3: starting from a freshly constructed (uninitialized) bounding box,
any successful sequence of `crop` calls replaces the bounding box's backing
path on the first call only — with a fresh temporary path, different from
the original — and every subsequent call leaves the path unchanged. -/
theorem crop_selfcrop_once {b : BoundingBox} {w : World}
    (hwf : b.wfCaches = true) (hok : w.ok) (hinit : b.initialized = false)
    (hb : (w.fs b.path).isSome = true) :
    ∀ (l : Layer) (ls : List Layer),
      (∀ x, x ∈ l :: ls → (w.fs x.path).isSome = true) →
      ∃ b2 w2, cropSeq b w (l :: ls) = some (b2, w2) ∧
        b2.path = Path.tmp w.nextTmp ∧ b2.path ≠ b.path := by
  intro l ls hlive
  obtain ⟨rB, hrB⟩ := Option.isSome_iff_exists.1 hb
  obtain ⟨rL, hrL⟩ := Option.isSome_iff_exists.1 (hlive l (by simp))
  obtain ⟨cl, l1, b', w', geo, bn, ln, hcrop, _, _, _, _, _, _, _, hb'path,
    hb'init, hb'wf, _, _, hok', hb'live, hpres, _, _, _, _, _⟩ :=
    BoundingBox.crop_spec hwf hok hrB hrL
  have hb'path' : b'.path = Path.tmp w.nextTmp := by
    rw [hb'path, hinit]
    simp
  obtain ⟨b2, w2, hseq, hb2path⟩ := cropSeq_initialized hb'wf hok' hb'init
    hb'live ls (fun x hx => by
      rw [hpres x.path (hlive x (by simp [hx]))]
      exact hlive x (by simp [hx]))
  refine ⟨b2, w2, ?_, hb2path.trans hb'path', ?_⟩
  · unfold cropSeq
    rw [hcrop]
    exact hseq
  · rw [hb2path.trans hb'path']
    exact fun he =>
      World.live_ne_tmp hok hb (Nat.le_refl w.nextTmp) he.symm

/-- C8: the pixel and geographic bounds are computed at the first access
and cached for the lifetime of the object: repeated accesses return the
same values and leave the state unchanged, and after `crop` replaces the
bounding box's backing path by its self-cropped temporary raster, both
accessors still return the originally cached values. -/
theorem bounds_cached_for_life {b : BoundingBox} {l : Layer} {w : World}
    {rB rL : Raster} (hwf : b.wfCaches = true) (hok : w.ok)
    (hinit : b.initialized = false)
    (hb : w.fs b.path = some rB) (hl : w.fs l.path = some rL) :
    ∃ vp bp vg bg, b.minPixelBoundsM w = some (vp, bp) ∧
      bp.minGeographicBoundsM w = some (vg, bg) ∧
      bg.minPixelBoundsM w = some (vp, bg) ∧
      bg.minGeographicBoundsM w = some (vg, bg) ∧
      ∃ cl l1 b2 w4, bg.crop l w = some (cl, l1, b2, w4) ∧
        b2.path = Path.tmp w.nextTmp ∧ b2.path ≠ b.path ∧
        b2.minPixelBoundsM w4 = some (vp, b2) ∧
        b2.minGeographicBoundsM w4 = some (vg, b2) := by
  obtain ⟨vp, bp, hpix, hvplen, hbppath, hbpinit, hbppix, hbpgeo, hbpwf, _, _,
    _, _⟩ := BoundingBox.minPixelBoundsM_spec hwf hb
  have hbpfs : w.fs bp.path = some rB := by rw [hbppath]; exact hb
  obtain ⟨vg, bg, hgeo, hvglen, hbgpath, hbginit, hbggeo, hbgwf, hbgpp, _, _,
    _⟩ := BoundingBox.minGeographicBoundsM_spec hbpwf hbpfs
  have hvpne : vp ≠ [] := by
    intro he
    rw [he] at hvplen
    simp at hvplen
  have hvgne : vg ≠ [] := by
    intro he
    rw [he] at hvglen
    simp at hvglen
  have hbgpix : bg.cachePixel = some vp := hbgpp vp hbppix
  have hbgfs : w.fs bg.path = some rB := by
    rw [hbgpath, hbppath]
    exact hb
  obtain ⟨cl, l1, b2, w4, geo, bn, ln, hcrop, _, _, _, _, _, _, _, hb2path,
    hb2init, hb2wf, hb2pp, hb2gp, _, _, _, _, _, _, _, _⟩ :=
    BoundingBox.crop_spec hbgwf hok hbgfs hl
  have hbginit' : bg.initialized = false := by
    rw [hbginit, hbpinit]
    exact hinit
  have hb2path' : b2.path = Path.tmp w.nextTmp := by
    rw [hb2path, hbginit']
    simp
  refine ⟨vp, bp, vg, bg, hpix, hgeo,
    minPixelBoundsM_cache_hit hbgpix hvpne w,
    minGeographicBoundsM_cache_hit hbggeo hvgne w,
    cl, l1, b2, w4, hcrop, hb2path', ?_,
    minPixelBoundsM_cache_hit (hb2pp vp hbgpix) hvpne w4,
    minGeographicBoundsM_cache_hit (hb2gp vg hbggeo) hvgne w4⟩
  rw [hb2path']
  exact fun he =>
    World.live_ne_tmp hok (by rw [hb]; rfl) (Nat.le_refl w.nextTmp) he.symm

/-- C4: `min_geographic_bounds` is the raster's affine transform applied
to `min_pixel_bounds`: with pixel bounds `[x_min, x_max, y_min, y_max]`,
each geographic coordinate is `origin + pixel * resolution` for its axis,
and the result is returned in the order
`[x_min_proj, y_min_proj, x_max_proj, y_max_proj]`. -/
theorem minGeographicBounds_affine {b : BoundingBox} {w : World} {r : Raster}
    (hwf : b.wfCaches = true) (hgeo : b.cacheGeo = none)
    (h : w.fs b.path = some r) :
    ∃ pb b1 b2, b.minPixelBoundsM w = some (pb, b1) ∧
      b.minGeographicBoundsM w =
        some ([r.gt0 + pb.getD 0 0 * r.gt1, r.gt3 + pb.getD 2 0 * r.gt5,
               r.gt0 + pb.getD 1 0 * r.gt1, r.gt3 + pb.getD 3 0 * r.gt5],
              b2) := by
  obtain ⟨pb, b1, hpix, hlen, hpath, _, _, _, _, _, _, _⟩ :=
    BoundingBox.minPixelBoundsM_spec hwf h
  obtain ⟨a0, a1, a2, a3, hv⟩ : ∃ a0 a1 a2 a3, pb = [a0, a1, a2, a3] := by
    rcases pb with _ | ⟨a0, _ | ⟨a1, _ | ⟨a2, _ | ⟨a3, _ | rest⟩⟩⟩⟩
    · simp at hlen
    · simp at hlen
    · simp at hlen
    · simp at hlen
    · exact ⟨a0, a1, a2, a3, rfl⟩
    · simp only [List.length_cons, List.length_nil] at hlen
      omega
  subst hv
  have hfs1 : w.fs b1.path = some r := by rw [hpath]; exact h
  refine ⟨[a0, a1, a2, a3], b1,
    { b1 with cacheGeo := some [r.gt0 + a0 * r.gt1, r.gt3 + a2 * r.gt5,
        r.gt0 + a1 * r.gt1, r.gt3 + a3 * r.gt5] }, hpix, ?_⟩
  simp [BoundingBox.minGeographicBoundsM, hgeo, hpix, hfs1]

/-- C10: on a raster that is entirely nodata, `min_pixel_bounds` raises no
error and returns the degenerate box `[W - 1, 1, -1, 1]` where `W` is the
raster width: the row scan never updates its accumulators, so `x_min`
stays at the width while `x_max`, `y_min` and `y_max` stay at `0`, before
the one-pixel widening. -/
theorem minPixelBounds_allNodata_degenerate {b : BoundingBox} {w : World}
    {r : Raster} {W : Nat} (hpix : b.cachePixel = none)
    (hnod : b.cacheNodata = none) (hwf : b.wfCaches = true)
    (h : w.fs b.path = some r) (hne : r.grid ≠ [])
    (hW : ∀ row ∈ r.grid, row.length = W)
    (hall : ∀ row ∈ r.grid, ∀ x ∈ row, x = r.nodata) :
    ∃ b1, b.minPixelBoundsM w = some ([(W : Int) - 1, 1, -1, 1], b1) := by
  obtain ⟨v, b1, hpixM, _, _, _, _, _, _, _, _, _, hfresh⟩ :=
    BoundingBox.minPixelBoundsM_spec hwf h
  have hv : v = computeMinPixelBounds r.nodata r.grid := (hfresh hpix hnod).1
  rw [hv, computeMinPixelBounds_allNodata hne hW hall] at hpixM
  exact ⟨b1, hpixM⟩

/-- A concrete bounding-box raster: nodata 0, a 3x3 grid with a non-nodata
block, identity-like geotransform. -/
def rBExa : Raster := ⟨0, [[0, 0, 0], [0, 5, 5], [0, 0, 0]], 0, 1, 0, 0, 0, 1⟩

/-- A concrete input-layer raster with nodata -1. -/
def rLExa : Raster := ⟨-1, [[7, 8, 9], [1, 2, 3], [4, 5, 6]], 0, 1, 0, 0, 0, 1⟩

/-- A freshly constructed bounding box over `rBExa`. -/
def bExa : BoundingBox := mkBoundingBox (Path.user "b")

/-- A concrete input layer over `rLExa`. -/
def lExa : Layer := ⟨Path.user "l", some 2010, some "absolute", none⟩

/-- A concrete world containing the two rasters and no temp files. -/
def wExa : World :=
  ⟨fun p => if p = Path.user "b" then some rBExa
    else if p = Path.user "l" then some rLExa else none, 0⟩

theorem wExa_ok : wExa.ok := fun _ _ => rfl

/-- Witness for `crop_fresh_output_input_unchanged` at a concrete world. -/
theorem crop_fresh_output_input_unchanged_witness :
    ∃ cl l1 b2 w4, bExa.crop lExa wExa = some (cl, l1, b2, w4) ∧
      (∃ n, cl.path = Path.tmp n ∧ wExa.fs cl.path = none) ∧
      cl.year = lExa.year ∧ cl.interpretation = lExa.interpretation ∧
      l1.path = lExa.path ∧ l1.year = lExa.year ∧
      l1.interpretation = lExa.interpretation ∧
      w4.fs lExa.path = wExa.fs lExa.path :=
  @crop_fresh_output_input_unchanged bExa lExa wExa rBExa rLExa
    rfl wExa_ok rfl rfl

/-- Witness for `crop_nodata_mask` at a concrete world. -/
theorem crop_nodata_mask_witness :
    ∃ cl l1 b2 w4 geo B OUT, bExa.crop lExa wExa = some (cl, l1, b2, w4) ∧
      w4.fs b2.path = some B ∧ B.nodata = rBExa.nodata ∧
      w4.fs cl.path = some OUT ∧
      OUT = gdalCalc B.nodata rLExa.nodata (rLExa.translate geo) B ∧
      (∀ i j, i < OUT.grid.length → j < (OUT.grid.getD i []).length →
        (OUT.grid.getD i []).getD j 0 =
          (if (B.grid.getD i []).getD j 0 = B.nodata then rLExa.nodata
           else ((rLExa.translate geo).grid.getD i []).getD j 0)) :=
  @crop_nodata_mask bExa lExa wExa rBExa rLExa rfl wExa_ok rfl rfl rfl rfl

/-- Witness for `crop_selfcrop_once` at a concrete world: three successive
crops. -/
theorem crop_selfcrop_once_witness :
    ∃ b2 w2, cropSeq bExa wExa [lExa, lExa, lExa] = some (b2, w2) ∧
      b2.path = Path.tmp wExa.nextTmp ∧ b2.path ≠ bExa.path :=
  crop_selfcrop_once (b := bExa) (w := wExa) rfl wExa_ok rfl rfl lExa
    [lExa, lExa] (by decide)

/-- Witness for `bounds_cached_for_life` at a concrete world. -/
theorem bounds_cached_for_life_witness :
    ∃ vp bp vg bg, bExa.minPixelBoundsM wExa = some (vp, bp) ∧
      bp.minGeographicBoundsM wExa = some (vg, bg) ∧
      bg.minPixelBoundsM wExa = some (vp, bg) ∧
      bg.minGeographicBoundsM wExa = some (vg, bg) ∧
      ∃ cl l1 b2 w4, bg.crop lExa wExa = some (cl, l1, b2, w4) ∧
        b2.path = Path.tmp wExa.nextTmp ∧ b2.path ≠ bExa.path ∧
        b2.minPixelBoundsM w4 = some (vp, b2) ∧
        b2.minGeographicBoundsM w4 = some (vg, b2) :=
  @bounds_cached_for_life bExa lExa wExa rBExa rLExa rfl wExa_ok rfl rfl rfl

/-- Witness for `minGeographicBounds_affine` at a concrete world. -/
theorem minGeographicBounds_affine_witness :
    ∃ pb b1 b2, bExa.minPixelBoundsM wExa = some (pb, b1) ∧
      bExa.minGeographicBoundsM wExa =
        some ([rBExa.gt0 + pb.getD 0 0 * rBExa.gt1,
               rBExa.gt3 + pb.getD 2 0 * rBExa.gt5,
               rBExa.gt0 + pb.getD 1 0 * rBExa.gt1,
               rBExa.gt3 + pb.getD 3 0 * rBExa.gt5], b2) :=
  minGeographicBounds_affine rfl rfl rfl

/-- An entirely-nodata 2x2 raster. -/
def rDegExa : Raster := ⟨0, [[0, 0], [0, 0]], 0, 1, 0, 0, 0, 1⟩

/-- A world containing only the all-nodata raster. -/
def wDegExa : World :=
  ⟨fun p => if p = Path.user "d" then some rDegExa else none, 0⟩

/-- A fresh bounding box over the all-nodata raster. -/
def bDegExa : BoundingBox := mkBoundingBox (Path.user "d")

/-- Witness for `minPixelBounds_allNodata_degenerate` on a 2x2 all-nodata
raster. -/
theorem minPixelBounds_allNodata_degenerate_witness :
    ∃ b1, bDegExa.minPixelBoundsM wDegExa = some ([(2 : Int) - 1, 1, -1, 1], b1) :=
  minPixelBounds_allNodata_degenerate (W := 2) rfl rfl rfl rfl (by decide)
    (by decide) (by decide)

/-- Modelled from the spec: the blend modes are a closed enum (`Add`,
`Subtract`); the file defining them is not among the sources at hand. -/
inductive BlendMode
  | add
  | subtract
deriving DecidableEq

/-- Modelled from the spec: `LayerCollection` (`layercollection.py` is not
among the sources at hand) is an ordered sequence of layers carrying a
palette and a background color as opaque styling parameters; an empty
collection is falsy. -/
structure LayerCollection where
  layers : List Layer
  palette : String
  backgroundColor : Int × Int × Int
deriving DecidableEq

/-- Modelled from the spec: the derived layer obtained by combining two
year-matched layers pixel-wise per the blend mode.  The pixel arithmetic
and its temp-file output are effects of the missing `layercollection.py`
and are not inspected by any claim, so the combined layer keeps the base
layer's identity with a fresh nodata cache. -/
def combineLayers (a b : Layer) (mode : BlendMode) : Layer :=
  ⟨a.path, a.year, a.interpretation, none⟩

/-- Modelled from the spec: `LayerCollection.blend` combines two
collections year-by-year into a new collection: a year present in both is
combined pixel-wise per the blend mode, and a year present in only one
collection is propagated unchanged (the spec's recommended policy for a
missing counterpart). -/
def LayerCollection.blend (self other : LayerCollection) (mode : BlendMode) :
    LayerCollection :=
  let combined := self.layers.map fun a =>
    match other.layers.find? (fun o => o.year == a.year) with
    | some o => combineLayers a o mode
    | none => a
  let extra := other.layers.filter fun o =>
    !(self.layers.any fun a => a.year == o.year)
  { self with layers := combined ++ extra }

/-- Modelled from the spec: the units enum; only the distinction feeding
the results provider's per-hectare flag is modelled. -/
inductive Units
  | Tc
  | TcPerHa
deriving DecidableEq, BEq

/-- The discovery collaborator: a glob pattern maps to the list of
matching file paths. -/
structure Env where
  globs : String → List String

/-- The largest index at which a character occurs (Python `str.rfind`). -/
def lastIdxOf (c : Char) (cs : List Char) : Option Nat :=
  ((List.range cs.length).filter fun i => cs.getD i ' ' == c).max?

/-- Model of the standard-library collaborator `os.path.splitext`: the
stem keeps everything before the final dot-extension of the last path
component, and a file name consisting only of leading dots keeps its dots. -/
def splitextStem (cs : List Char) : List Char :=
  let sepIdx : Int := match lastIdxOf '/' cs with | some i => (i : Int) | none => -1
  let dotIdx : Int := match lastIdxOf '.' cs with | some i => (i : Int) | none => -1
  if dotIdx > sepIdx ∧
      ((List.range cs.length).any fun k =>
        (decide (sepIdx < (k : Int) ∧ (k : Int) < dotIdx)) &&
          (cs.getD k ' ' != '.')) then
    cs.take dotIdx.toNat
  else cs

/-- Python `s[-4:]`: the last four characters (or all of them when the
text is shorter). -/
def last4 (cs : List Char) : List Char := cs.drop (cs.length - 4)

/-- Modelled from the spec: the `int()` conversion of the year text done
by the `Layer` constructor (the spec's data model declares the year an
integer; `layer.py` is not among the sources at hand).  `none` when the
text is not a nonempty digit string. -/
def parseDigits? (cs : List Char) : Option Nat :=
  if cs ≠ [] ∧ cs.all Char.isDigit then
    some (cs.foldl (fun a c => a * 10 + (c.toNat - 48)) 0)
  else none

/-- The discovery step for one path (compositeindicator.py lines 91-92):
`year = os.path.splitext(layer_path)[0][-4:]` followed by
`Layer(layer_path, year)`. -/
def discoverLayer (p : String) : Layer :=
  ⟨Path.user p, (parseDigits? (last4 (splitextStem p.data))).map Int.ofNat,
   none, none⟩

/-- `CompositeIndicator.__init__` state (compositeindicator.py lines
37-43): the ordered pattern-to-blend-mode mapping, the styling and unit
parameters, and the lazily built composite collection and results
provider (both `None` at construction). -/
structure CompositeIndicator where
  patterns : List (String × BlendMode)
  palette : String
  backgroundColor : Int × Int × Int
  mapUnits : Units
  composite : Option LayerCollection
  provider : Option (List Layer × Bool)
deriving DecidableEq

/-- `CompositeIndicator._find_layers` (lines 88-98): discover the paths
matching the glob pattern, wrap each as a layer, and raise `IOError` when
the pattern matches zero files. -/
def CompositeIndicator.findLayers (ci : CompositeIndicator) (env : Env)
    (pattern : String) : Except String LayerCollection :=
  if ((env.globs pattern).map discoverLayer).isEmpty then
    Except.error ("No spatial output found for pattern: " ++ pattern)
  else
    Except.ok ⟨(env.globs pattern).map discoverLayer, ci.palette,
      ci.backgroundColor⟩

/-- The pattern fold of `CompositeIndicator._init` (lines 80-82).  Besides
the folded composite (or the discovery error), it returns the patterns
passed to the discovery collaborator and the discovered layer lists that
were blended into the accumulator, in order. -/
def buildComposite (ci : CompositeIndicator) (env : Env)
    (acc : LayerCollection) :
    List (String × BlendMode) →
      Except String LayerCollection × List String × List (List Layer)
  | [] => (Except.ok acc, [], [])
  | (pat, mode) :: rest =>
    match ci.findLayers env pat with
    | Except.error e => (Except.error e, [pat], [])
    | Except.ok ls =>
      match buildComposite ci env (acc.blend ls mode) rest with
      | (res, gs, bs) => (res, pat :: gs, ls.layers :: bs)

/-- Observable effects of one `_init` call: the patterns passed to the
discovery collaborator, the discovered layer lists blended into the
composite, and whether the guarded build body ran at all. -/
structure InitLog where
  globbed : List String
  blended : List (List Layer)
  built : Bool
deriving DecidableEq

/-- `CompositeIndicator._init` (lines 75-86): guarded by
`if not self._composite_layers`, which is true when the composite is
`None` or an empty (falsy) collection; the guarded body rebuilds the
composite from an empty collection over all patterns and constructs a new
results provider with `per_hectare = (map_units == Units.TcPerHa)`.
`render_map_frames` and `render_graph_frames` both call `_init` first and
then delegate to external collaborators. -/
def CompositeIndicator.init (ci : CompositeIndicator) (env : Env) :
    Except String CompositeIndicator × InitLog :=
  if ((ci.composite.map LayerCollection.layers).getD []).isEmpty then
    match buildComposite ci env ⟨[], ci.palette, ci.backgroundColor⟩
        ci.patterns with
    | (Except.error e, gs, bs) => (Except.error e, ⟨gs, bs, true⟩)
    | (Except.ok comp, gs, bs) =>
      (Except.ok { ci with
          composite := some comp
          provider := some (comp.layers, ci.mapUnits == Units.TcPerHa) },
       ⟨gs, bs, true⟩)
  else (Except.ok ci, ⟨[], [], false⟩)

theorem findLayers_ok_nonempty {ci : CompositeIndicator} {env : Env}
    {pattern : String} {coll : LayerCollection}
    (h : ci.findLayers env pattern = Except.ok coll) : coll.layers ≠ [] := by
  unfold CompositeIndicator.findLayers at h
  split at h
  · simp at h
  · rename_i hne
    injection h with h1
    rw [← h1]
    intro hc
    simp only at hc
    rw [hc] at hne
    exact hne rfl

theorem findLayers_ok_layers {ci : CompositeIndicator} {env : Env}
    {pattern : String} {coll : LayerCollection}
    (h : ci.findLayers env pattern = Except.ok coll) :
    coll.layers = (env.globs pattern).map discoverLayer := by
  unfold CompositeIndicator.findLayers at h
  split at h
  · simp at h
  · injection h with h1
    rw [← h1]

theorem blend_layers_ne_nil_left {self other : LayerCollection}
    {mode : BlendMode} (h : self.layers ≠ []) :
    (self.blend other mode).layers ≠ [] := by
  simp only [LayerCollection.blend]
  intro hc
  rcases List.append_eq_nil.1 hc with ⟨h1, _⟩
  rw [List.map_eq_nil] at h1
  exact h h1

theorem blend_layers_ne_nil_right {self other : LayerCollection}
    {mode : BlendMode} (h : other.layers ≠ []) :
    (self.blend other mode).layers ≠ [] := by
  simp only [LayerCollection.blend]
  intro hc
  rcases List.append_eq_nil.1 hc with ⟨h1, h2⟩
  rw [List.map_eq_nil] at h1
  rw [h1] at h2
  simp only [List.any_nil, Bool.not_false, List.filter_true] at h2
  exact h h2

theorem buildComposite_ok_nonempty {ci : CompositeIndicator} {env : Env} :
    ∀ (ps : List (String × BlendMode)) (acc comp : LayerCollection),
    acc.layers ≠ [] →
    (buildComposite ci env acc ps).1 = Except.ok comp →
    comp.layers ≠ [] := by
  intro ps
  induction ps with
  | nil =>
    intro acc comp hacc h
    simp only [buildComposite] at h
    injection h with h1
    rw [← h1]
    exact hacc
  | cons pm rest ih =>
    intro acc comp hacc h
    obtain ⟨pat, mode⟩ := pm
    unfold buildComposite at h
    split at h
    · simp at h
    · rename_i ls hfind
      rcases hbc : buildComposite ci env (acc.blend ls mode) rest with
        ⟨res, gs', bs'⟩
      rw [hbc] at h
      simp only at h
      exact ih (acc.blend ls mode) comp (blend_layers_ne_nil_left hacc)
        (by rw [hbc]; exact h)

theorem buildComposite_blended_nonempty {ci : CompositeIndicator}
    {env : Env} :
    ∀ (ps : List (String × BlendMode)) (acc : LayerCollection),
    ∀ bl ∈ (buildComposite ci env acc ps).2.2, bl ≠ [] := by
  intro ps
  induction ps with
  | nil =>
    intro acc bl hbl
    simp [buildComposite] at hbl
  | cons pm rest ih =>
    intro acc bl hbl
    obtain ⟨pat, mode⟩ := pm
    unfold buildComposite at hbl
    split at hbl
    · simp at hbl
    · rename_i ls hfind
      rcases hbc : buildComposite ci env (acc.blend ls mode) rest with
        ⟨res, gs', bs'⟩
      rw [hbc] at hbl
      simp only [List.mem_cons] at hbl
      rcases hbl with hbl | hbl
      · rw [hbl]
        exact findLayers_ok_nonempty hfind
      · have := ih (acc.blend ls mode) bl (by rw [hbc]; exact hbl)
        exact this

theorem buildComposite_error_of_empty_glob {ci : CompositeIndicator}
    {env : Env} :
    ∀ (ps : List (String × BlendMode)) (acc : LayerCollection)
      (pat : String) (mode : BlendMode),
    (pat, mode) ∈ ps → env.globs pat = [] →
    ∃ p', env.globs p' = [] ∧ (∃ m', (p', m') ∈ ps) ∧
      (buildComposite ci env acc ps).1 =
        Except.error ("No spatial output found for pattern: " ++ p') := by
  intro ps
  induction ps with
  | nil =>
    intro acc pat mode hmem _
    simp at hmem
  | cons pm rest ih =>
    intro acc pat mode hmem hglob
    obtain ⟨q, m⟩ := pm
    by_cases hq : env.globs q = []
    · refine ⟨q, hq, ⟨m, by simp⟩, ?_⟩
      unfold buildComposite
      have hfind : ci.findLayers env q =
          Except.error ("No spatial output found for pattern: " ++ q) := by
        unfold CompositeIndicator.findLayers
        rw [if_pos (by rw [hq]; rfl)]
      rw [hfind]
    · have hmem' : (pat, mode) ∈ rest := by
        rcases List.mem_cons.1 hmem with he | ht
        · exfalso
          injection he with he1 he2
          rw [he1] at hglob
          exact hq hglob
        · exact ht
      have hfind : ∃ ls, ci.findLayers env q = Except.ok ls := by
        refine ⟨⟨(env.globs q).map discoverLayer, ci.palette,
          ci.backgroundColor⟩, ?_⟩
        unfold CompositeIndicator.findLayers
        rw [if_neg]
        intro hc
        rw [List.isEmpty_iff, List.map_eq_nil] at hc
        exact hq hc
      obtain ⟨ls, hls⟩ := hfind
      obtain ⟨p', hp1, ⟨m', hp2⟩, hp3⟩ :=
        ih (acc.blend ls m) pat mode hmem' hglob
      refine ⟨p', hp1, ⟨m', List.mem_cons_of_mem _ hp2⟩, ?_⟩
      unfold buildComposite
      rw [hls]
      exact hp3

theorem isEmpty_false_of_ne_nil {α : Type} {l : List α} (h : l ≠ []) :
    l.isEmpty = false := by
  cases l with
  | nil => exact absurd rfl h
  | cons a t => rfl

theorem buildComposite_ok_nonempty_of_ps {ci : CompositeIndicator}
    {env : Env} :
    ∀ (ps : List (String × BlendMode)) (acc comp : LayerCollection),
    ps ≠ [] →
    (buildComposite ci env acc ps).1 = Except.ok comp →
    comp.layers ≠ [] := by
  intro ps
  cases ps with
  | nil =>
    intro acc comp hne _
    exact absurd rfl hne
  | cons pm rest =>
    intro acc comp _ h
    obtain ⟨pat, mode⟩ := pm
    unfold buildComposite at h
    split at h
    · simp at h
    · rename_i ls hfind
      exact buildComposite_ok_nonempty rest (acc.blend ls mode) comp
        (blend_layers_ne_nil_right (findLayers_ok_nonempty hfind)) h

/-- C5 (amended): composite construction is memoized provided the patterns
mapping is non-empty.  Once `_init` has successfully built the composite,
every later `_init` call — and hence every later `render_map_frames` or
`render_graph_frames` call, both of which run `_init` first — returns the
same state and performs no discovery, no blend and no rebuild.  (With an
empty patterns mapping the built composite is an empty, falsy collection,
so the `if not self._composite_layers` guard passes again and the body
reruns on every call.) -/
theorem init_memoized_nonempty_patterns {ci : CompositeIndicator}
    {env : Env} {ci' : CompositeIndicator} {log : InitLog}
    (hps : ci.patterns ≠ [])
    (h : ci.init env = (Except.ok ci', log)) :
    ci'.init env = (Except.ok ci', ⟨[], [], false⟩) := by
  unfold CompositeIndicator.init at h
  split at h
  · rename_i hguard
    rcases hbc : buildComposite ci env ⟨[], ci.palette, ci.backgroundColor⟩
        ci.patterns with ⟨res, gs, bs⟩
    rw [hbc] at h
    cases res with
    | error e => simp at h
    | ok comp =>
      simp only [Prod.mk.injEq] at h
      obtain ⟨h1, _⟩ := h
      injection h1 with h1'
      have hcompne : comp.layers ≠ [] :=
        buildComposite_ok_nonempty_of_ps ci.patterns
          ⟨[], ci.palette, ci.backgroundColor⟩ comp hps
          (by rw [hbc])
      rw [← h1']
      unfold CompositeIndicator.init
      rw [if_neg]
      intro hc
      have hc' : comp.layers.isEmpty = true := hc
      rw [isEmpty_false_of_ne_nil hcompne] at hc'
      cases hc'
  · rename_i hguard
    simp only [Prod.mk.injEq] at h
    obtain ⟨h1, _⟩ := h
    injection h1 with h1'
    rw [← h1']
    unfold CompositeIndicator.init
    rw [if_neg hguard]

/-- A composite indicator with an empty patterns mapping. -/
def ciEmptyExa : CompositeIndicator :=
  ⟨[], "Greens", (255, 255, 255), Units.TcPerHa, none, none⟩

/-- An environment in which every pattern matches nothing. -/
def envEmptyExa : Env := ⟨fun _ => []⟩

/-- `ciEmptyExa` after its first build: the composite exists but is the
empty — hence falsy — collection. -/
def ciEmptyBuiltExa : CompositeIndicator :=
  ⟨[], "Greens", (255, 255, 255), Units.TcPerHa,
   some ⟨[], "Greens", (255, 255, 255)⟩, some ([], true)⟩

/-- C5 counterexample: for an instance with an empty patterns mapping the
first `_init` call builds the composite (the guarded body runs:
`built = true`), yet the very next call on the resulting state runs the
guarded build body again instead of reusing the already-built composite,
because the built composite is empty and therefore falsy. -/
theorem init_memoized_claim_false :
    ciEmptyExa.init envEmptyExa =
      (Except.ok ciEmptyBuiltExa, ⟨[], [], true⟩) ∧
    (ciEmptyBuiltExa.init envEmptyExa).2.built = true :=
  ⟨rfl, rfl⟩

/-- A discovery environment with one two-file pattern. -/
def envExa2 : Env :=
  ⟨fun p => if p = "NPP_*.tif" then ["NPP_2001.tif", "NPP_2002.tif"] else []⟩

/-- A composite indicator over one pattern, freshly constructed. -/
def ciExa2 : CompositeIndicator :=
  ⟨[("NPP_*.tif", BlendMode.add)], "Greens", (255, 255, 255), Units.TcPerHa,
   none, none⟩

/-- `ciExa2` after its first successful build. -/
def ciBuiltExa2 : CompositeIndicator :=
  ⟨[("NPP_*.tif", BlendMode.add)], "Greens", (255, 255, 255), Units.TcPerHa,
   some ⟨[⟨Path.user "NPP_2001.tif", some 2001, none, none⟩,
          ⟨Path.user "NPP_2002.tif", some 2002, none, none⟩],
         "Greens", (255, 255, 255)⟩,
   some ([⟨Path.user "NPP_2001.tif", some 2001, none, none⟩,
          ⟨Path.user "NPP_2002.tif", some 2002, none, none⟩], true)⟩

/-- Witness for `init_memoized_nonempty_patterns`. -/
theorem init_memoized_nonempty_patterns_witness :
    ciBuiltExa2.init envExa2 = (Except.ok ciBuiltExa2, ⟨[], [], false⟩) :=
  @init_memoized_nonempty_patterns ciExa2 envExa2 ciBuiltExa2
    ⟨["NPP_*.tif"], [[⟨Path.user "NPP_2001.tif", some 2001, none, none⟩,
      ⟨Path.user "NPP_2002.tif", some 2002, none, none⟩]], true⟩
    (by decide) rfl

/-- C6: if any pattern in the mapping matches zero files, composite
construction fails with the `IOError` message naming a zero-match
(offending) pattern, and no empty discovered `LayerCollection` is ever
blended into the composite: every discovered layer list blended during
the build is non-empty. -/
theorem init_empty_pattern_error {ci : CompositeIndicator} {env : Env}
    {pat : String} {mode : BlendMode}
    (hcomp : ci.composite = none)
    (hmem : (pat, mode) ∈ ci.patterns) (hglob : env.globs pat = []) :
    ∃ p', env.globs p' = [] ∧ (∃ m', (p', m') ∈ ci.patterns) ∧
      (ci.init env).1 =
        Except.error ("No spatial output found for pattern: " ++ p') ∧
      (∀ bl ∈ (ci.init env).2.blended, bl ≠ []) := by
  obtain ⟨p', hp1, hp2, hp3⟩ := buildComposite_error_of_empty_glob
    ci.patterns ⟨[], ci.palette, ci.backgroundColor⟩ pat mode hmem hglob
  have hguard :
      ((ci.composite.map LayerCollection.layers).getD []).isEmpty = true := by
    rw [hcomp]
    rfl
  refine ⟨p', hp1, hp2, ?_, ?_⟩
  · unfold CompositeIndicator.init
    rw [if_pos hguard]
    rcases hbc : buildComposite ci env ⟨[], ci.palette, ci.backgroundColor⟩
        ci.patterns with ⟨res, gs, bs⟩
    rw [hbc] at hp3
    simp only at hp3
    rw [hp3]
  · intro bl hbl
    unfold CompositeIndicator.init at hbl
    rw [if_pos hguard] at hbl
    rcases hbc : buildComposite ci env ⟨[], ci.palette, ci.backgroundColor⟩
        ci.patterns with ⟨res, gs, bs⟩
    rw [hbc] at hbl
    have hbl' : bl ∈ bs := by
      cases res with
      | error e => exact hbl
      | ok comp => exact hbl
    refine @buildComposite_blended_nonempty ci env
      ci.patterns ⟨[], ci.palette, ci.backgroundColor⟩ bl ?_
    rw [hbc]
    exact hbl'

/-- An environment for the C6 witness: the first pattern matches one file
and the second matches none. -/
def envC6Exa : Env :=
  ⟨fun p => if p = "NPP_*.tif" then ["NPP_2001.tif"] else []⟩

/-- A composite indicator whose second pattern matches zero files. -/
def ciC6Exa : CompositeIndicator :=
  ⟨[("NPP_*.tif", BlendMode.add), ("NEP_*.tif", BlendMode.subtract)],
   "Greens", (255, 255, 255), Units.TcPerHa, none, none⟩

/-- Witness for `init_empty_pattern_error`. -/
theorem init_empty_pattern_error_witness :
    ∃ p', envC6Exa.globs p' = [] ∧
      (∃ m', (p', m') ∈ ciC6Exa.patterns) ∧
      (ciC6Exa.init envC6Exa).1 =
        Except.error ("No spatial output found for pattern: " ++ p') ∧
      (∀ bl ∈ (ciC6Exa.init envC6Exa).2.blended, bl ≠ []) :=
  @init_empty_pattern_error ciC6Exa envC6Exa "NEP_*.tif" BlendMode.subtract
    rfl (by decide) rfl

/-- C7: every file path discovered by a glob pattern is wrapped as a layer
for that path, and when the last 4 characters of the filename stem (the
path with its extension removed) are the digits `d1 d2 d3 d4`, the
layer's year attribute is the integer those digits denote. -/
theorem findLayers_year {ci : CompositeIndicator} {env : Env}
    {pattern : String} {coll : LayerCollection}
    (h : ci.findLayers env pattern = Except.ok coll) :
    ∀ p ∈ env.globs pattern, discoverLayer p ∈ coll.layers ∧
      (discoverLayer p).path = Path.user p ∧
      (∀ d1 d2 d3 d4 : Char,
        last4 (splitextStem p.data) = [d1, d2, d3, d4] →
        d1.isDigit = true → d2.isDigit = true → d3.isDigit = true →
        d4.isDigit = true →
        (discoverLayer p).year =
          some ((((((d1.toNat - 48) * 10 + (d2.toNat - 48)) * 10 +
            (d3.toNat - 48)) * 10 + (d4.toNat - 48) : Nat) : Int))) := by
  intro p hp
  have hcoll := findLayers_ok_layers h
  refine ⟨by rw [hcoll]; exact List.mem_map_of_mem discoverLayer hp, rfl, ?_⟩
  intro d1 d2 d3 d4 hlast hd1 hd2 hd3 hd4
  unfold discoverLayer
  simp only
  rw [hlast]
  unfold parseDigits?
  rw [if_pos (by simp [hd1, hd2, hd3, hd4])]
  simp only [Option.map_some, List.foldl, Option.some.injEq]
  have : ((((0 * 10 + (d1.toNat - 48)) * 10 + (d2.toNat - 48)) * 10 +
      (d3.toNat - 48)) * 10 + (d4.toNat - 48)) =
      ((((d1.toNat - 48) * 10 + (d2.toNat - 48)) * 10 +
      (d3.toNat - 48)) * 10 + (d4.toNat - 48)) := by omega
  rw [this]
  rfl

/-- Witness for `findLayers_year`. -/
theorem findLayers_year_witness :
    discoverLayer "NPP_2001.tif" ∈
      (⟨[⟨Path.user "NPP_2001.tif", some 2001, none, none⟩,
         ⟨Path.user "NPP_2002.tif", some 2002, none, none⟩],
        "Greens", (255, 255, 255)⟩ : LayerCollection).layers ∧
    (discoverLayer "NPP_2001.tif").path = Path.user "NPP_2001.tif" ∧
    (discoverLayer "NPP_2001.tif").year =
      some ((((((Char.toNat '2' - 48) * 10 + (Char.toNat '0' - 48)) * 10 +
        (Char.toNat '0' - 48)) * 10 + (Char.toNat '1' - 48) : Nat) : Int)) := by
  obtain ⟨h1, h2, h3⟩ := @findLayers_year ciExa2 envExa2 "NPP_*.tif"
    ⟨[⟨Path.user "NPP_2001.tif", some 2001, none, none⟩,
      ⟨Path.user "NPP_2002.tif", some 2002, none, none⟩],
     "Greens", (255, 255, 255)⟩ rfl "NPP_2001.tif" (by decide)
  exact ⟨h1, h2, h3 '2' '0' '0' '1' rfl (by decide) (by decide) (by decide)
    (by decide)⟩

end Gcbm
